import Mathlib

/-!
Verification development for the moqtail demo-syncplay repository.

This file gives a shallow embedding, in Lean 4, of the parts of the
program that the specification talks about:

* the client-side media addressing functions `timeToGroup` / `timeToObject`
  (apps/client/src/App.tsx),
* the follower corrector `handleSyncUpdate` / `handlePlaybackControl`
  (apps/client/src/hooks/useSyncPlayback.ts),
* the fetch-scheduler loop body and the buffer eviction routine
  `cleanupBuffer` (apps/client/src/App.tsx),
* the server-side `RoomManager` (joinRoom / leaveRoom /
  handleSyncUpdate / handlePlaybackControl) and the WebSocket
  dispatch layer (apps/server/src/server.ts).

JavaScript numbers are modelled by `ℚ` (the scenarios of the spec only
involve decimal fractions whose behaviour is identical under IEEE
doubles and exact rationals), JavaScript `Map`s by association lists in
insertion order, and `uuidv4` generation by a strictly increasing
counter (all that the code relies on is freshness of the generated
identifiers).  `Math.random()` is passed in as an explicit rational
parameter `rand` with `0 ≤ rand < 1`.
-/

namespace SyncPlay

/-! ## Client media addressing (apps/client/src/App.tsx, timeToGroup / timeToObject) -/

/-- Truncation toward zero, the semantics of the implicit truncation in the
JavaScript remainder operator `%`. -/
def jsTrunc (q : ℚ) : ℤ := if 0 ≤ q then ⌊q⌋ else ⌈q⌉

/-- The JavaScript expression `timeSeconds % 1` from `timeToObject`. -/
def jsModOne (q : ℚ) : ℚ := q - jsTrunc q

/-- Embedding of `timeToGroup` (App.tsx line 163):
`Math.floor(timeSeconds * settings.groupsPerSecond)`. -/
def timeToGroup (groupsPerSecond : ℚ) (timeSeconds : ℚ) : ℤ :=
  ⌊timeSeconds * groupsPerSecond⌋

/-- Embedding of `timeToObject` (App.tsx line 167):
`Math.floor((timeSeconds % 1) * settings.objectsPerGroup)`. -/
def timeToObject (objectsPerGroup : ℚ) (timeSeconds : ℚ) : ℤ :=
  ⌊jsModOne timeSeconds * objectsPerGroup⌋

/-! ## Follower corrector (apps/client/src/hooks/useSyncPlayback.ts) -/

/-- The `action` field of a `playback-control` message. -/
inductive ControlAction where
  | play
  | pause
  | seek
deriving DecidableEq, Repr

/-- Payload of a `sync-update` message (shared client/server type). -/
structure SyncUpdateMsg where
  timestamp : ℚ
  groupId : ℤ
  objectId : ℤ
  isPlaying : Bool
deriving DecidableEq, Repr

/-- Payload of a `playback-control` message (shared client/server type). -/
structure PlaybackControlMsg where
  action : ControlAction
  timestamp : ℚ
  groupId : ℤ
  objectId : ℤ
  seekTarget : Option ℚ
deriving DecidableEq, Repr

/-- The observable state of the HTML video element that the corrector
reads and writes: `currentTime` and `paused`. -/
structure VideoState where
  currentTime : ℚ
  paused : Bool
deriving DecidableEq, Repr

/-- Embedding of the follower-side `handleSyncUpdate` callback
(useSyncPlayback.ts lines 59-97).  `isDecoupledPlayback` is the
independent-mode flag; when it is set the handler returns immediately.
Otherwise it computes `delta = |currentTime - leaderTime|`, seeks to the
leader time when `delta` exceeds the threshold, and then reconciles the
play/pause state with the leader's `isPlaying` flag. -/
def followerHandleSyncUpdate (deltaThreshold : ℚ) (isDecoupledPlayback : Bool)
    (video : VideoState) (m : SyncUpdateMsg) : VideoState :=
  if isDecoupledPlayback then video else
  let leaderTime := m.timestamp
  let delta := |video.currentTime - leaderTime|
  let v1 : VideoState :=
    if deltaThreshold < delta then { video with currentTime := leaderTime } else video
  if m.isPlaying && v1.paused then { v1 with paused := false }
  else if !m.isPlaying && !v1.paused then { v1 with paused := true }
  else v1

/-- Embedding of the follower-side `handlePlaybackControl` callback
(useSyncPlayback.ts lines 99-134).  `play` and `pause` only toggle the
paused flag; a `seek` action assigns `seekTarget` to `currentTime`
unconditionally (no delta computation happens in this handler). -/
def followerHandlePlaybackControl (isDecoupledPlayback : Bool)
    (video : VideoState) (m : PlaybackControlMsg) : VideoState :=
  if isDecoupledPlayback then video else
  match m.action with
  | ControlAction.play => if video.paused then { video with paused := false } else video
  | ControlAction.pause => if !video.paused then { video with paused := true } else video
  | ControlAction.seek =>
    match m.seekTarget with
    | some s => { video with currentTime := s }
    | none => video

/-! ## Fetch scheduler loop body (apps/client/src/App.tsx, streaming loop) -/

/-- Embedding of `isRangeBuffered` (App.tsx lines 172-179): a `for` loop
checking every group from `startGroup` to `endGroup` inclusive against
the buffered set. -/
def isRangeBuffered (buffered : List ℕ) (startGroup endGroup : ℕ) : Bool :=
  (List.range' startGroup (endGroup + 1 - startGroup)).all fun g => buffered.contains g

/-- Set insertion for the buffered-groups set (JavaScript `Set.add`). -/
def bufSetAdd (s : List ℕ) (g : ℕ) : List ℕ :=
  if s.contains g then s else s ++ [g]

/-- Embedding of `markGroupsBuffered` (App.tsx lines 181-185). -/
def markGroupsBuffered (s : List ℕ) (startGroup endGroup : ℕ) : List ℕ :=
  (List.range' startGroup (endGroup + 1 - startGroup)).foldl bufSetAdd s

/-- Mutable scheduler state read by one iteration of the streaming
loop: the `nextGroup` cursor and the buffered-groups set. -/
structure SchedState where
  nextGroup : ℕ
  buffered : List ℕ
deriving DecidableEq, Repr

/-- Result of one iteration of the streaming loop: the groups for which
a fetch was issued during the iteration (payloads of completed fetches
are appended to the buffer sink), and the updated scheduler state. -/
structure SchedResult where
  fetched : List ℕ
  nextGroup : ℕ
  buffered : List ℕ
deriving DecidableEq, Repr

/-- Embedding of the fetch-decision part of one streaming-loop
iteration (App.tsx lines 692-728, after the effective current group has
been determined): compute `maxGroupToFetch`, and if the cursor is
within it, fetch the cursor's group when it is missing from the
buffered set (marking it buffered on completion) and advance the
cursor by one either way. -/
def schedStep (fetchAheadSeconds groupsPerSecond : ℕ) (currentGroup : ℕ)
    (s : SchedState) : SchedResult :=
  let fetchAheadGroups := fetchAheadSeconds * groupsPerSecond
  let maxGroupToFetch := currentGroup + fetchAheadGroups
  if s.nextGroup ≤ maxGroupToFetch then
    let targetGroup := s.nextGroup
    if !isRangeBuffered s.buffered targetGroup targetGroup then
      { fetched := [targetGroup],
        nextGroup := targetGroup + 1,
        buffered := markGroupsBuffered s.buffered targetGroup targetGroup }
    else
      { fetched := [], nextGroup := s.nextGroup + 1, buffered := s.buffered }
  else
    { fetched := [], nextGroup := s.nextGroup, buffered := s.buffered }

/-! ## Buffer eviction (apps/client/src/App.tsx, cleanupBuffer) -/

/-- A contiguous buffered time range, as reported by
`SourceBuffer.buffered` (`start(i)` / `end(i)`; `end` is a Lean keyword,
so the second field is called `stop`). -/
structure TimeRange where
  start : ℚ
  stop : ℚ
deriving DecidableEq, Repr

/-- The client settings read by `cleanupBuffer`. -/
structure BufferSettings where
  backBufferSeconds : ℚ
  fetchAheadSeconds : ℚ
  maxBufferSeconds : ℚ
deriving DecidableEq, Repr

/-- The branch cascade of `cleanupBuffer` (App.tsx lines 263-310) that
chooses the candidate range to remove, given the main window
`[mainStart, mainEnd]` and the first and last buffered ranges.  In the
source the fallback cutoff `Math.max(0, t - back)` is the same value as
`mainStart`. -/
def pickRemoval (mainStart mainEnd : ℚ) (first last : TimeRange) : Option TimeRange :=
  if first.stop ≤ mainStart then some ⟨first.start, first.stop⟩
  else if mainEnd ≤ last.start then some ⟨last.start, last.stop⟩
  else if first.start < mainStart ∧ mainStart < first.stop then some ⟨first.start, mainStart⟩
  else if last.start < mainEnd ∧ mainEnd < last.stop then some ⟨mainEnd, last.stop⟩
  else some ⟨first.start, min first.stop mainStart⟩

/-- Embedding of `cleanupBuffer` (App.tsx lines 233-332), reduced to the
range it removes from the media buffer (`none` when nothing is
removed).  Degenerate reported ranges (`end ≤ start`) are skipped when
collecting `ranges`, exactly as in the source; the final
`removeEnd > removeStart` guard of line 312 (which also subsumes the
internal guard of the fallback branch) is applied to the candidate. -/
def cleanupBufferRemoval (cfg : BufferSettings) (currentTimeSeconds : ℚ)
    (buffered : List TimeRange) : Option TimeRange :=
  if buffered.isEmpty then none else
  let t := currentTimeSeconds
  let mainStart := max 0 (t - cfg.backBufferSeconds)
  let mainEnd := t + cfg.fetchAheadSeconds
  let ranges := buffered.filter fun r => decide (r.start < r.stop)
  let totalDuration := (ranges.map fun r => r.stop - r.start).sum
  match ranges.head?, ranges.getLast? with
  | some first, some last =>
    if totalDuration ≤ cfg.maxBufferSeconds then none
    else
      match pickRemoval mainStart mainEnd first last with
      | some r => if r.start < r.stop then some r else none
      | none => none
  | _, _ => none

/-! ## Session coordinator (server RoomManager and WebSocket dispatch) -/

/-- Member identity.  The source uses `uuidv4()`; the model generates
identities from a strictly increasing counter, which captures the only
property the code relies on (freshness). -/
abbrev UserId := ℕ

/-- A connection handle (the `ws` object of the source). -/
abbrev ConnId := ℕ

/-- Room identity. -/
abbrev RoomId := String

/-- Member role (`UserRole` in the source). -/
inductive Role where
  | leader
  | follower
deriving DecidableEq, Repr

/-- Embedding of the server `User` record. -/
structure User where
  id : ℕ
  name : String
  role : Role
  roomId : RoomId
  mediaTrackName : String
  conn : ℕ
deriving DecidableEq, Repr

/-- Embedding of the server `PlaybackState` record. -/
structure PlaybackState where
  timestamp : ℚ
  groupId : ℤ
  objectId : ℤ
  isPlaying : Bool
  lastUpdateTime : ℤ
deriving DecidableEq, Repr

/-- Embedding of the server `Room` record; `users` models the
`Map<string, User>` keyed by `User.id`, in insertion order. -/
structure Room where
  id : RoomId
  leaderId : Option ℕ
  users : List User
  mediaName : String
  currentPlaybackState : Option PlaybackState
deriving DecidableEq, Repr

/-- Embedding of `ServerConfig` (the `videoCatalog` field is never read
by the room logic and is omitted). -/
structure ServerConfig where
  maxRoomCount : ℕ
  maxUsersPerRoom : ℕ
deriving DecidableEq, Repr

/-- Embedding of the `RoomManager` class state; `rooms` models the
`Map<string, Room>` keyed by `Room.id`, in insertion order, and
`nextUserId` models the `uuidv4` generator. -/
structure RoomManager where
  config : ServerConfig
  rooms : List Room
  allConnections : List ℕ
  nextUserId : ℕ
deriving DecidableEq, Repr

/-- The `users` entry of a `room-state` message. -/
structure RoomUserInfo where
  id : ℕ
  name : String
  role : Role
deriving DecidableEq, Repr

/-- Embedding of the `RoomStateMessage` payload. -/
structure RoomStateMsg where
  roomId : RoomId
  userId : ℕ
  role : Role
  leaderId : Option ℕ
  leaderName : Option String
  users : List RoomUserInfo
  totalUsers : ℕ
  mediaName : String
  currentPlaybackState : Option PlaybackState
deriving DecidableEq, Repr

/-- Embedding of the `RoomInfo` summary sent in `rooms-list` messages. -/
structure RoomInfo where
  id : RoomId
  hasLeader : Bool
  userCount : ℕ
  videoName : String
  leaderName : Option String
deriving DecidableEq, Repr

/-- Messages the coordinator sends to clients. -/
inductive OutMsg where
  | roomState (m : RoomStateMsg)
  | userJoined (userId : ℕ) (userName : String) (role : Role) (totalUsers : ℕ)
  | userLeft (userId : ℕ) (userName : String) (totalUsers : ℕ) (newLeaderId : Option ℕ)
  | roomsList (rooms : List RoomInfo)
  | syncUpdate (m : SyncUpdateMsg)
  | playbackControl (m : PlaybackControlMsg)
  | errorOut (code : String) (message : String)
deriving DecidableEq, Repr

/-- A message together with the connection it is sent to. -/
abbrev Sent := ConnId × OutMsg

/-- Map lookup `this.rooms.get(roomId)`. -/
def getRoom (mgr : RoomManager) (roomId : RoomId) : Option Room :=
  mgr.rooms.find? fun r => decide (r.id = roomId)

/-- Update of the rooms association list at the id of `room` (the JS
code mutates the `Room` object in place; the model writes the updated
room back at its key). -/
def updateRooms (rooms : List Room) (room : Room) : List Room :=
  rooms.map fun r => if r.id = room.id then room else r

/-- Write `room` back into the manager at its key (`Map.set`
semantics: replace when present, append when absent). -/
def setRoom (mgr : RoomManager) (room : Room) : RoomManager :=
  if mgr.rooms.any (fun r => decide (r.id = room.id)) then
    { mgr with rooms := updateRooms mgr.rooms room }
  else
    { mgr with rooms := mgr.rooms ++ [room] }

/-- Embedding of `getOrCreateRoom` (RoomManager lines 52-66). -/
def getOrCreateRoom (mgr : RoomManager) (roomId : RoomId) : RoomManager × Room :=
  match getRoom mgr roomId with
  | some room => (mgr, room)
  | none =>
    let room : Room :=
      { id := roomId, leaderId := none, users := [], mediaName := "demo",
        currentPlaybackState := none }
    ({ mgr with rooms := mgr.rooms ++ [room] }, room)

/-- Embedding of `getRoomsList` (RoomManager lines 307-320). -/
def getRoomsList (mgr : RoomManager) : List RoomInfo :=
  mgr.rooms.map fun room =>
    let leader : Option User := match room.leaderId with
      | some lid => room.users.find? fun u => decide (u.id = lid)
      | none => none
    { id := room.id, hasLeader := room.leaderId.isSome, userCount := room.users.length,
      videoName := room.mediaName, leaderName := leader.map (·.name) }

/-- Embedding of `broadcastRoomListUpdate` (RoomManager lines 34-50);
all tracked connections are modelled as open. -/
def broadcastRoomListUpdate (mgr : RoomManager) : List Sent :=
  mgr.allConnections.map fun c => (c, OutMsg.roomsList (getRoomsList mgr))

/-- The `room-state` payload built by `sendRoomState`. -/
def roomStateMsgFor (roomId : RoomId) (room : Room) (user : User) : RoomStateMsg :=
  let leader : Option User := match room.leaderId with
    | some lid => room.users.find? fun u => decide (u.id = lid)
    | none => none
  { roomId := roomId, userId := user.id, role := user.role, leaderId := room.leaderId,
    leaderName := leader.map (·.name),
    users := room.users.map fun u => { id := u.id, name := u.name, role := u.role },
    totalUsers := room.users.length, mediaName := room.mediaName,
    currentPlaybackState := room.currentPlaybackState }

/-- Embedding of `sendRoomState` (RoomManager lines 252-279). -/
def sendRoomState (mgr : RoomManager) (roomId : RoomId) (userId : UserId) : List Sent :=
  match getRoom mgr roomId with
  | none => []
  | some room =>
    match room.users.find? (fun u => decide (u.id = userId)) with
    | none => []
    | some user => [(user.conn, OutMsg.roomState (roomStateMsgFor roomId room user))]

/-- Embedding of `broadcastToRoom` (RoomManager lines 281-289). -/
def broadcastToRoom (mgr : RoomManager) (roomId : RoomId) (msg : OutMsg)
    (excludeUserId : Option UserId) : List Sent :=
  match getRoom mgr roomId with
  | none => []
  | some room =>
    (room.users.filter fun u => decide (¬ excludeUserId = some u.id)).map fun u => (u.conn, msg)

/-- The value returned by `joinRoom`: success flag, assigned member id,
and error (code and message) on failure. -/
structure JoinResult where
  success : Bool
  userId : Option ℕ
  error : Option (String × String)
deriving DecidableEq, Repr

/-- Embedding of `joinRoom` (RoomManager lines 68-156), returning the
updated manager, the result record, and the messages sent as side
effects. -/
def joinRoom (mgr : RoomManager) (roomId : RoomId) (role : Role)
    (userName mediaTrackName : String) (conn : ConnId) :
    RoomManager × JoinResult × List Sent :=
  let roomExists := (getRoom mgr roomId).isSome
  if ¬roomExists ∧ mgr.rooms.length ≥ mgr.config.maxRoomCount then
    (mgr, { success := false, userId := none,
            error := some ("MAX_ROOMS_REACHED",
              "Maximum number of rooms reached. Please join an existing room.") }, [])
  else
    let gcr := getOrCreateRoom mgr roomId
    let mgr1 := gcr.1
    let room := gcr.2
    if room.users.length ≥ mgr1.config.maxUsersPerRoom then
      (mgr1, { success := false, userId := none,
               error := some ("ROOM_FULL",
                 "This room is full. Please join a different room.") }, [])
    else if role = Role.leader ∧ room.leaderId.isSome then
      (mgr1, { success := false, userId := none,
               error := some ("LEADER_EXISTS",
                 "A leader already exists in this room. Please join as a follower.") }, [])
    else if role = Role.follower ∧ room.leaderId = none ∧ room.users.length > 0 then
      (mgr1, { success := false, userId := none,
               error := some ("NO_LEADER",
                 "This room has no leader. Cannot join as follower.") }, [])
    else
      let userId := mgr1.nextUserId
      let user : User :=
        { id := userId, name := userName, role := role, roomId := roomId,
          mediaTrackName := mediaTrackName, conn := conn }
      let room1 : Room := { room with users := room.users ++ [user] }
      let room2 : Room :=
        if role = Role.leader then
          { room1 with leaderId := some userId, mediaName := mediaTrackName }
        else room1
      let mgr2 := setRoom { mgr1 with nextUserId := mgr1.nextUserId + 1 } room2
      let sent :=
        sendRoomState mgr2 roomId userId
          ++ broadcastToRoom mgr2 roomId
              (OutMsg.userJoined userId userName role room2.users.length) (some userId)
          ++ broadcastRoomListUpdate mgr2
      (mgr2, { success := true, userId := some userId, error := none }, sent)

/-- The leader-promotion block of `leaveRoom` (RoomManager lines
178-192): pick the follower at index `Math.floor(rand * length)` among
the remaining followers and make it leader; with no followers the
leader id becomes null.  The inner `none` branch of the array index is
unreachable for `0 ≤ rand < 1`. -/
def promoteAfterLeaderLeft (room1 : Room) (remaining : List User) (rand : ℚ) :
    Room × Option UserId :=
  let followers := remaining.filter fun u => decide (u.role = Role.follower)
  if followers.length > 0 then
    let idx := (⌊rand * (followers.length : ℚ)⌋).toNat
    match followers.get? idx with
    | some chosen =>
      ({ room1 with
          leaderId := some chosen.id,
          users := remaining.map fun u =>
            if u.id = chosen.id then { u with role := Role.leader } else u },
       some chosen.id)
    | none => ({ room1 with leaderId := none }, none)
  else ({ room1 with leaderId := none }, none)

/-- Embedding of `leaveRoom` (RoomManager lines 158-209).  `rand` is
the value of the `Math.random()` call. -/
def leaveRoom (mgr : RoomManager) (roomId : RoomId) (userId : UserId) (rand : ℚ) :
    RoomManager × List Sent :=
  match getRoom mgr roomId with
  | none => (mgr, [])
  | some room =>
    match room.users.find? (fun u => decide (u.id = userId)) with
    | none => (mgr, [])
    | some user =>
      let userName := user.name
      let wasLeader := room.leaderId = some userId
      let remaining := room.users.filter fun u => decide (¬ u.id = userId)
      if remaining.length = 0 then
        let mgr1 := { mgr with rooms := mgr.rooms.filter fun r => decide (¬ r.id = roomId) }
        (mgr1, broadcastRoomListUpdate mgr1)
      else
        let room1 : Room := { room with users := remaining }
        let pr := if wasLeader then promoteAfterLeaderLeft room1 remaining rand
                  else (room1, none)
        let room2 := pr.1
        let newLeaderId := pr.2
        let mgr1 := setRoom mgr room2
        let sent1 := broadcastToRoom mgr1 roomId
          (OutMsg.userLeft userId userName remaining.length newLeaderId) none
        let sent2 := if newLeaderId.isSome then
            (room2.users.map fun u => sendRoomState mgr1 roomId u.id).flatten
          else []
        (mgr1, sent1 ++ sent2 ++ broadcastRoomListUpdate mgr1)

/-- Embedding of `RoomManager.handleSyncUpdate` (lines 211-229).  `now`
is the value of the `Date.now()` call.  A missing room or a sender that
is not the room's leader yields a pure no-op (a warning is logged in
the source; nothing is sent). -/
def handleSyncUpdate (mgr : RoomManager) (roomId : RoomId) (userId : UserId)
    (syncData : SyncUpdateMsg) (now : ℤ) : RoomManager × List Sent :=
  match getRoom mgr roomId with
  | none => (mgr, [])
  | some room =>
    if ¬ room.leaderId = some userId then (mgr, [])
    else
      let ps : PlaybackState :=
        { timestamp := syncData.timestamp, groupId := syncData.groupId,
          objectId := syncData.objectId, isPlaying := syncData.isPlaying,
          lastUpdateTime := now }
      let room1 : Room := { room with currentPlaybackState := some ps }
      let mgr1 := setRoom mgr room1
      (mgr1, broadcastToRoom mgr1 roomId (OutMsg.syncUpdate syncData) (some userId))

/-- Embedding of `RoomManager.handlePlaybackControl` (lines 231-250).
The stored `isPlaying` is the equality test `action === 'play'` of line
240. -/
def handlePlaybackControl (mgr : RoomManager) (roomId : RoomId) (userId : UserId)
    (controlData : PlaybackControlMsg) (now : ℤ) : RoomManager × List Sent :=
  match getRoom mgr roomId with
  | none => (mgr, [])
  | some room =>
    if ¬ room.leaderId = some userId then (mgr, [])
    else
      let isPlaying := decide (controlData.action = ControlAction.play)
      let ps : PlaybackState :=
        { timestamp := controlData.timestamp, groupId := controlData.groupId,
          objectId := controlData.objectId, isPlaying := isPlaying,
          lastUpdateTime := now }
      let room1 : Room := { room with currentPlaybackState := some ps }
      let mgr1 := setRoom mgr room1
      (mgr1, broadcastToRoom mgr1 roomId (OutMsg.playbackControl controlData) (some userId))

/-! ## WebSocket dispatch layer (apps/server/src/server.ts) -/

/-- The server-level mutable state: the room manager plus the
`connectionToUserId` map from connections to their joined identity. -/
structure ServerState where
  manager : RoomManager
  connectionToUserId : List (ℕ × ℕ × RoomId)
deriving DecidableEq, Repr

/-- Embedding of the server-level `handleSyncUpdate` (server.ts lines
123-131): a message from a connection with no join record is dropped
with a warning; otherwise it is forwarded to the room manager.  The
handler never closes the connection and never replies to the sender. -/
def serverHandleSyncUpdate (st : ServerState) (ws : ConnId) (msg : SyncUpdateMsg)
    (now : ℤ) : ServerState × List Sent :=
  match st.connectionToUserId.find? (fun e => decide (e.1 = ws)) with
  | none => (st, [])
  | some e =>
    let res := handleSyncUpdate st.manager e.2.2 e.2.1 msg now
    ({ st with manager := res.1 }, res.2)

/-- Embedding of the server-level `handlePlaybackControl` (server.ts
lines 133-142), analogous to `serverHandleSyncUpdate`. -/
def serverHandlePlaybackControl (st : ServerState) (ws : ConnId)
    (msg : PlaybackControlMsg) (now : ℤ) : ServerState × List Sent :=
  match st.connectionToUserId.find? (fun e => decide (e.1 = ws)) with
  | none => (st, [])
  | some e =>
    let res := handlePlaybackControl st.manager e.2.2 e.2.1 msg now
    ({ st with manager := res.1 }, res.2)

/-! ## Operation sequences over the coordinator -/

/-- A mutating coordinator operation, for stating reachability
invariants over sequences of joins and leaves. -/
inductive Op where
  | join (roomId : RoomId) (role : Role) (userName mediaTrackName : String) (conn : ConnId)
  | leave (roomId : RoomId) (userId : UserId) (rand : ℚ)

/-- State transition of a single operation (the messages sent are
irrelevant to the invariants and dropped). -/
def applyOp (mgr : RoomManager) : Op → RoomManager
  | Op.join roomId role userName mediaTrackName conn =>
      (joinRoom mgr roomId role userName mediaTrackName conn).1
  | Op.leave roomId userId rand => (leaveRoom mgr roomId userId rand).1

/-- The coordinator state at process start: no rooms, no users. -/
def initialManager (cfg : ServerConfig) : RoomManager :=
  { config := cfg, rooms := [], allConnections := [], nextUserId := 0 }

/-- The coordinator state after a sequence of join/leave operations. -/
def runOps (cfg : ServerConfig) (ops : List Op) : RoomManager :=
  ops.foldl applyOp (initialManager cfg)

/-! ## Claim C8: address mapping -/

/-- C8: for every playback time `t ≥ 0` the address mapping satisfies
`groupId(t) = ⌊t * groupsPerSecond⌋` and
`objectId(t) = ⌊frac(t) * objectsPerGroup⌋`, and both functions are
deterministic (equal results on repeated evaluation at the same `t`). -/
theorem address_mapping_floor (gps opg : ℚ) (t : ℚ) (ht : 0 ≤ t) :
    timeToGroup gps t = ⌊t * gps⌋ ∧
    timeToObject opg t = ⌊(t - ⌊t⌋) * opg⌋ ∧
    (∀ s : ℚ, s = t →
      timeToGroup gps s = timeToGroup gps t ∧ timeToObject opg s = timeToObject opg t) := by
  refine ⟨rfl, ?_, ?_⟩
  · unfold timeToObject jsModOne jsTrunc
    rw [if_pos ht]
  · intro s hs
    rw [hs]
    exact ⟨rfl, rfl⟩

/-- Witness for C8: Scenario A, `groupsPerSecond = 1`,
`objectsPerGroup = 48`, `t = 12.5`: `groupId = 12`, `objectId = 24`. -/
theorem address_mapping_floor_witness :
    (0 : ℚ) ≤ 25 / 2 ∧
    timeToGroup 1 (25 / 2) = ⌊(25 / 2 : ℚ) * 1⌋ ∧
    timeToObject 48 (25 / 2) = ⌊((25 / 2 : ℚ) - ⌊(25 / 2 : ℚ)⌋) * 48⌋ ∧
    timeToGroup 1 (25 / 2) = 12 ∧ timeToObject 48 (25 / 2) = 24 := by
  have h := address_mapping_floor 1 48 (25 / 2) (by norm_num)
  refine ⟨by norm_num, h.1, h.2.1, ?_, ?_⟩
  · rw [h.1]
    norm_num
  · rw [h.2.1]
    norm_num

/-! ## Claim C5: follower corrector -/

/-- C5 (amended): for every `sync-update` message received by a
follower's corrector that is not in independent mode, the corrector
computes `delta = |localTime - leaderTime|` and forces a local seek to
`leaderTime` exactly when `delta` exceeds the threshold; in particular
with threshold `0.5`, leader timestamp `10.0` and local time `10.8` it
seeks to `10.0`, and with local time `10.3` it does not seek.  (The
original claim also asserted this for `playback-control` messages; see
the counterexample `follower_playback_control_no_delta_seek`.) -/
theorem follower_sync_update_seek (thr : ℚ) (v : VideoState) (m : SyncUpdateMsg) :
    (followerHandleSyncUpdate thr false v m).currentTime =
      (if thr < |v.currentTime - m.timestamp| then m.timestamp else v.currentTime) ∧
    (followerHandleSyncUpdate (1 / 2) false ⟨54 / 5, false⟩ ⟨10, 10, 0, true⟩).currentTime
      = 10 ∧
    (followerHandleSyncUpdate (1 / 2) false ⟨103 / 10, false⟩ ⟨10, 10, 0, true⟩).currentTime
      = 103 / 10 := by
  have heq : ∀ (thr0 : ℚ) (v0 : VideoState) (m0 : SyncUpdateMsg),
      (followerHandleSyncUpdate thr0 false v0 m0).currentTime =
        (if thr0 < |v0.currentTime - m0.timestamp| then m0.timestamp else v0.currentTime) := by
    intro thr0 v0 m0
    unfold followerHandleSyncUpdate
    simp only [Bool.false_eq_true, if_false]
    split_ifs <;> rfl
  refine ⟨heq thr v m, ?_, ?_⟩
  · rw [heq]
    have hc : (1 / 2 : ℚ) < |(54 / 5 : ℚ) - 10| := by
      rw [show (54 / 5 : ℚ) - 10 = 4 / 5 by norm_num, abs_of_pos (by norm_num)]
      norm_num
    exact if_pos hc
  · rw [heq]
    have hc : ¬ (1 / 2 : ℚ) < |(103 / 10 : ℚ) - 10| := by
      rw [show (103 / 10 : ℚ) - 10 = 3 / 10 by norm_num, abs_of_pos (by norm_num)]
      norm_num
    exact if_neg hc

/-- Counterexample for C5 as stated: a `playback-control` message (here
a `play` action with leader timestamp `100`) received by a
non-independent follower whose local time is `0` produces a delta of
`100`, far above the threshold `0.5`, yet the handler performs no seek:
the local time stays `0` instead of becoming `100`.  The follower-side
`playback-control` handler computes no delta at all. -/
theorem follower_playback_control_no_delta_seek :
    (followerHandlePlaybackControl false ⟨0, true⟩
        ⟨ControlAction.play, 100, 100, 0, none⟩).currentTime = 0 ∧
    (1 / 2 : ℚ) < |(0 : ℚ) - 100| ∧ (0 : ℚ) ≠ 100 := by
  exact ⟨rfl, by norm_num, by norm_num⟩

/-! ## Claim C7: fetch-scheduler iteration -/

/-- Checking a single-group range is a membership test. -/
lemma isRangeBuffered_single (buf : List ℕ) (g : ℕ) :
    isRangeBuffered buf g g = buf.contains g := by
  unfold isRangeBuffered
  have h : g + 1 - g = 1 := by omega
  rw [h, List.range'_one]
  simp

/-- Marking a single-group range is a single set insertion. -/
lemma markGroupsBuffered_single (s : List ℕ) (g : ℕ) :
    markGroupsBuffered s g g = bufSetAdd s g := by
  unfold markGroupsBuffered
  have h : g + 1 - g = 1 := by omega
  rw [h, List.range'_one]
  rfl

/-- C7: with `maxGroupToFetch = effectiveGroup + fetchAheadSeconds *
groupsPerSecond`, an iteration with `nextGroup ≤ maxGroupToFetch`
issues exactly one fetch (for `nextGroup`) when `nextGroup` is not in
the buffered set and none when it is, and advances the cursor by one in
either case; in particular with `nextGroup = 5`, `effectiveGroup = 5`,
`fetchAheadSeconds = 5`, `groupsPerSecond = 1` and group `5`
unbuffered, one fetch for group `5` is issued and the cursor becomes
`6`. -/
theorem sched_step_window (ahead gps eff : ℕ) (s : SchedState)
    (h : s.nextGroup ≤ eff + ahead * gps) :
    (s.buffered.contains s.nextGroup = false →
        schedStep ahead gps eff s =
          { fetched := [s.nextGroup], nextGroup := s.nextGroup + 1,
            buffered := s.buffered ++ [s.nextGroup] }) ∧
    (s.buffered.contains s.nextGroup = true →
        schedStep ahead gps eff s =
          { fetched := [], nextGroup := s.nextGroup + 1, buffered := s.buffered }) ∧
    schedStep 5 1 5 ⟨5, []⟩ = { fetched := [5], nextGroup := 6, buffered := [5] } := by
  refine ⟨?_, ?_, by decide⟩
  · intro hb
    simp only [schedStep, isRangeBuffered_single, markGroupsBuffered_single, hb, if_pos h]
    simp [bufSetAdd, hb]
    simpa using hb
  · intro hb
    simp only [schedStep, isRangeBuffered_single, hb, if_pos h]
    simp

/-- Witness for C7: Scenario E instantiated through
`sched_step_window`. -/
theorem sched_step_window_witness :
    (5 : ℕ) ≤ 5 + 5 * 1 ∧
    schedStep 5 1 5 ⟨5, []⟩ =
      { fetched := [5], nextGroup := 6, buffered := [5] } := by
  have h := sched_step_window 5 1 5 ⟨5, []⟩ (by decide)
  exact ⟨by decide, h.1 rfl⟩

/-! ## Claim C6: buffer eviction -/

/-- Every candidate chosen by the branch cascade either ends at or
before the main-window start (and begins at the first range's start) or
begins at or after the main-window end. -/
lemma pickRemoval_spec (ms me : ℚ) (first last r : TimeRange)
    (hp : pickRemoval ms me first last = some r) :
    (r.stop ≤ ms ∧ r.start = first.start) ∨ me ≤ r.start := by
  unfold pickRemoval at hp
  split_ifs at hp with h1 h2 h3 h4 <;>
    (rw [Option.some_inj] at hp; subst hp)
  · exact Or.inl ⟨h1, rfl⟩
  · exact Or.inr h2
  · exact Or.inl ⟨le_refl _, rfl⟩
  · exact Or.inr (le_refl _)
  · exact Or.inl ⟨min_le_right _ _, rfl⟩

/-- C6: for every invocation of buffer eviction with current time `t`,
if the total buffered duration is at most the budget then no range is
removed; otherwise the removed range never overlaps the main window
`[t - backBufferSeconds, t + fetchAheadSeconds]`: it either ends at or
before `t - backBufferSeconds` (all of branches (a), (c) and (e) of the
cascade, including the tight-budget fallback, which removes only
content up to `t - backBufferSeconds`) or starts at or after
`t + fetchAheadSeconds` (branches (b) and (d)).  The hypothesis `hwf`
states that the ranges reported by the media buffer are well-formed:
non-negative and non-degenerate. -/
theorem cleanup_buffer_eviction_safe (cfg : BufferSettings) (t : ℚ)
    (buffered : List TimeRange)
    (hwf : ∀ r ∈ buffered, 0 ≤ r.start ∧ r.start < r.stop) :
    ((buffered.map fun r => r.stop - r.start).sum ≤ cfg.maxBufferSeconds →
        cleanupBufferRemoval cfg t buffered = none) ∧
    (∀ rm : TimeRange, cleanupBufferRemoval cfg t buffered = some rm →
        rm.stop ≤ t - cfg.backBufferSeconds ∨ t + cfg.fetchAheadSeconds ≤ rm.start) := by
  have hfilter : buffered.filter (fun r => decide (r.start < r.stop)) = buffered :=
    List.filter_eq_self.mpr fun r hr => by simpa using (hwf r hr).2
  by_cases hemp : buffered = []
  · subst hemp
    refine ⟨fun _ => rfl, fun rm hrm => ?_⟩
    simp [cleanupBufferRemoval] at hrm
  · obtain ⟨first, hfirst⟩ : ∃ a, buffered.head? = some a := by
      cases hh : buffered.head? with
      | none => exact absurd (List.head?_eq_none_iff.mp hh) hemp
      | some a => exact ⟨a, rfl⟩
    obtain ⟨last, hlast⟩ : ∃ a, buffered.getLast? = some a := by
      cases hh : buffered.getLast? with
      | none => exact absurd (List.getLast?_eq_none_iff.mp hh) hemp
      | some a => exact ⟨a, rfl⟩
    have hne : buffered.isEmpty = false := by
      simpa [List.isEmpty_iff] using hemp
    have hred : cleanupBufferRemoval cfg t buffered =
        (if (buffered.map fun r => r.stop - r.start).sum ≤ cfg.maxBufferSeconds then none
         else
           match pickRemoval (max 0 (t - cfg.backBufferSeconds)) (t + cfg.fetchAheadSeconds)
                first last with
           | some r => if r.start < r.stop then some r else none
           | none => none) := by
      simp only [cleanupBufferRemoval, hne, Bool.false_eq_true, if_false, hfilter, hfirst,
        hlast]
    constructor
    · intro hsum
      rw [hred, if_pos hsum]
    · intro rm hrm
      rw [hred] at hrm
      by_cases hsum : (buffered.map fun r => r.stop - r.start).sum ≤ cfg.maxBufferSeconds
      · rw [if_pos hsum] at hrm
        exact absurd hrm (by simp)
      · rw [if_neg hsum] at hrm
        cases hp : pickRemoval (max 0 (t - cfg.backBufferSeconds))
            (t + cfg.fetchAheadSeconds) first last with
        | none =>
          rw [hp] at hrm
          dsimp only at hrm
          exact absurd hrm (by simp)
        | some r =>
          rw [hp] at hrm
          dsimp only at hrm
          by_cases hlt : r.start < r.stop
          · rw [if_pos hlt, Option.some_inj] at hrm
            subst hrm
            have hfmem : first ∈ buffered := List.mem_of_mem_head? (by rw [hfirst]; rfl)
            have hf0 : 0 ≤ first.start := (hwf first hfmem).1
            rcases pickRemoval_spec _ _ _ _ _ hp with ⟨hle, hstart⟩ | hme
            · rcases le_or_lt 0 (t - cfg.backBufferSeconds) with hge | hneg
              · rw [max_eq_right hge] at hle
                exact Or.inl hle
              · rw [max_eq_left (le_of_lt hneg)] at hle
                rw [hstart] at hlt
                linarith
            · exact Or.inr hme
          · rw [if_neg hlt] at hrm
            exact absurd hrm (by simp)

/-- Witness for C6: with settings `back = 5`, `ahead = 5`, budget `20`,
current time `10` and a single buffered range `[0, 30]` (duration `30`
over budget), the eviction trims the old tail `[0, 5]`, which ends
exactly at `t - backBufferSeconds = 5` and does not overlap the main
window `[5, 15]`. -/
theorem cleanup_buffer_eviction_safe_witness :
    cleanupBufferRemoval ⟨5, 5, 20⟩ 10 [⟨0, 30⟩] = some ⟨0, 5⟩ ∧
    ((5 : ℚ) ≤ 10 - 5 ∨ (10 : ℚ) + 5 ≤ 0) := by
  have hwf : ∀ r ∈ [(⟨0, 30⟩ : TimeRange)], 0 ≤ r.start ∧ r.start < r.stop := by
    intro r hr
    simp at hr
    subst hr
    exact ⟨by norm_num, by norm_num⟩
  have h := cleanup_buffer_eviction_safe ⟨5, 5, 20⟩ 10 [⟨0, 30⟩] hwf
  have hev : cleanupBufferRemoval ⟨5, 5, 20⟩ 10 [⟨0, 30⟩] = some ⟨0, 5⟩ := by
    have hms : max (0 : ℚ) (10 - 5) = 5 := by norm_num
    norm_num [cleanupBufferRemoval, pickRemoval, hms]
  exact ⟨hev, h.2 ⟨0, 5⟩ hev⟩

/-! ## Association-list lemmas for the rooms map -/

/-- Looking up a member of the map by its own key finds it, when keys
are distinct. -/
lemma find?_id_of_mem_nodup (rooms : List Room) (room : Room)
    (hnd : (rooms.map Room.id).Nodup) (hmem : room ∈ rooms) :
    rooms.find? (fun r => decide (r.id = room.id)) = some room := by
  induction rooms with
  | nil => simp at hmem
  | cons a tl ih =>
    rcases List.mem_cons.mp hmem with rfl | hmem2
    · simp
    · simp only [List.map_cons, List.nodup_cons] at hnd
      have hne : ¬ a.id = room.id := by
        intro he
        exact hnd.1 (he ▸ List.mem_map_of_mem Room.id hmem2)
      have hb : decide (a.id = room.id) = false := by simpa using hne
      simp only [List.find?, hb]
      exact ih hnd.2 hmem2

/-- Updating the map at a key and looking that key up yields the new
room, provided the key was present. -/
lemma find?_updateRooms_self (rooms : List Room) (room : Room)
    (h : ∃ r ∈ rooms, r.id = room.id) :
    (updateRooms rooms room).find? (fun r => decide (r.id = room.id)) = some room := by
  induction rooms with
  | nil => simp at h
  | cons a tl ih =>
    obtain ⟨r0, hr0, hid⟩ := h
    unfold updateRooms
    rcases List.mem_cons.mp hr0 with rfl | hmem
    · rw [List.map_cons, if_pos hid]
      simp
    · by_cases ha : a.id = room.id
      · rw [List.map_cons, if_pos ha]
        simp
      · have hb : decide (a.id = room.id) = false := by simpa using ha
        rw [List.map_cons, if_neg ha]
        simp only [List.find?, hb]
        exact ih ⟨r0, hmem, hid⟩

/-- Updating the map at one key does not change lookups at other
keys. -/
lemma find?_updateRooms_ne (rooms : List Room) (room : Room) (rid : RoomId)
    (hne : ¬ rid = room.id) :
    (updateRooms rooms room).find? (fun r => decide (r.id = rid)) =
      rooms.find? (fun r => decide (r.id = rid)) := by
  induction rooms with
  | nil => rfl
  | cons a tl ih =>
    unfold updateRooms
    by_cases ha : a.id = room.id
    · rw [List.map_cons, if_pos ha]
      have hna : decide (room.id = rid) = false := by
        simp only [decide_eq_false_iff_not]
        exact fun h => hne h.symm
      have hna2 : decide (a.id = rid) = false := by
        simp only [decide_eq_false_iff_not]
        exact fun h => hne (ha ▸ h).symm
      simp only [List.find?, hna, hna2]
      exact ih
    · rw [List.map_cons, if_neg ha]
      by_cases har : a.id = rid
      · have hb : decide (a.id = rid) = true := by simpa using har
        simp only [List.find?, hb]
      · have hb : decide (a.id = rid) = false := by simpa using har
        simp only [List.find?, hb]
        exact ih

/-- Writing a room back and reading its key returns exactly that
room. -/
lemma getRoom_setRoom_self (mgr : RoomManager) (room : Room) :
    getRoom (setRoom mgr room) room.id = some room := by
  unfold setRoom getRoom
  by_cases h : mgr.rooms.any (fun r => decide (r.id = room.id))
  · rw [if_pos h]
    dsimp only
    apply find?_updateRooms_self
    obtain ⟨r, hr, hp⟩ := List.any_eq_true.mp h
    exact ⟨r, hr, by simpa using hp⟩
  · rw [if_neg h]
    dsimp only
    rw [List.find?_append]
    have hnone : mgr.rooms.find? (fun r => decide (r.id = room.id)) = none := by
      rw [List.find?_eq_none]
      intro x hx hpx
      exact h (List.any_eq_true.mpr ⟨x, hx, hpx⟩)
    rw [hnone]
    simp

/-- Writing a room back does not change lookups at other keys. -/
lemma getRoom_setRoom_ne (mgr : RoomManager) (room : Room) (rid : RoomId)
    (hne : ¬ rid = room.id) :
    getRoom (setRoom mgr room) rid = getRoom mgr rid := by
  unfold setRoom getRoom
  by_cases h : mgr.rooms.any (fun r => decide (r.id = room.id))
  · rw [if_pos h]
    exact find?_updateRooms_ne mgr.rooms room rid hne
  · rw [if_neg h]
    dsimp only
    rw [List.find?_append]
    have hnone : ([room].find? fun r => decide (r.id = rid)) = none := by
      rw [List.find?_eq_none]
      intro x hx hpx
      rw [List.mem_singleton] at hx
      subst hx
      have hxe : x.id = rid := by simpa using hpx
      exact hne hxe.symm
    rw [hnone]
    cases mgr.rooms.find? fun r => decide (r.id = rid) <;> rfl

/-- A successful room lookup returns a room carrying the looked-up
key. -/
lemma getRoom_id (mgr : RoomManager) (rid : RoomId) (room : Room)
    (h : getRoom mgr rid = some room) : room.id = rid := by
  have := List.find?_some h
  simpa using this

/-! ## Claim C1: isPlaying derived from the control action -/

/-- A one-member example room whose leader (member `0`) is currently
playing (`isPlaying = true`). -/
def exRoom : Room :=
  { id := "r1", leaderId := some 0,
    users := [{ id := 0, name := "alice", role := Role.leader, roomId := "r1",
                mediaTrackName := "demo", conn := 10 }],
    mediaName := "demo",
    currentPlaybackState := some
      { timestamp := 5, groupId := 5, objectId := 0, isPlaying := true,
        lastUpdateTime := 0 } }

/-- An example manager holding `exRoom`. -/
def exMgr : RoomManager :=
  { config := { maxRoomCount := 10, maxUsersPerRoom := 10 },
    rooms := [exRoom], allConnections := [10], nextUserId := 1 }

/-- Counterexample for C1 as stated: in `exRoom` the stored
`isPlaying` is `true`; after the leader relays a `seek` control event
the stored `isPlaying` becomes `false` instead of staying unchanged,
because line 240 computes `isPlaying = (action === 'play')` for every
action. -/
theorem seek_control_sets_isPlaying_false :
    ((getRoom (handlePlaybackControl exMgr "r1" 0
          { action := ControlAction.seek, timestamp := 7, groupId := 7, objectId := 0,
            seekTarget := some 7 } 99).1 "r1").bind
        Room.currentPlaybackState).map PlaybackState.isPlaying = some false ∧
    (exRoom.currentPlaybackState.map PlaybackState.isPlaying) = some true := by
  exact ⟨rfl, rfl⟩

/-- C1 (amended): for every playback-control event relayed by the
coordinator from the current leader, the `isPlaying` field of the
room's stored `PlaybackState` is the test `action = play`: a `play`
action sets it true, while `pause` and `seek` actions set it false. -/
theorem playback_control_isPlaying_from_action (mgr : RoomManager) (roomId : RoomId)
    (userId : UserId) (ctrl : PlaybackControlMsg) (now : ℤ) (room : Room)
    (hroom : getRoom mgr roomId = some room) (hleader : room.leaderId = some userId) :
    getRoom (handlePlaybackControl mgr roomId userId ctrl now).1 roomId =
      some { room with currentPlaybackState := some ⟨ctrl.timestamp, ctrl.groupId,
        ctrl.objectId, decide (ctrl.action = ControlAction.play), now⟩ } := by
  unfold handlePlaybackControl
  rw [hroom]
  dsimp only
  rw [if_neg (fun h => h hleader)]
  have hid : room.id = roomId := getRoom_id mgr roomId room hroom
  dsimp only
  rw [show roomId = ({ room with currentPlaybackState := some ⟨ctrl.timestamp, ctrl.groupId,
    ctrl.objectId, decide (ctrl.action = ControlAction.play), now⟩ } : Room).id from hid.symm]
  exact getRoom_setRoom_self mgr _

/-- Witness for C1 (amended): in `exMgr` the leader relays a `play`
control event; the stored playback state carries `isPlaying = true`. -/
theorem playback_control_isPlaying_from_action_witness :
    getRoom (handlePlaybackControl exMgr "r1" 0
        { action := ControlAction.play, timestamp := 7, groupId := 7, objectId := 0,
          seekTarget := none } 99).1 "r1" =
      some { exRoom with currentPlaybackState := some ⟨7, 7, 0, true, 99⟩ } := by
  have h := playback_control_isPlaying_from_action exMgr "r1" 0
    { action := ControlAction.play, timestamp := 7, groupId := 7, objectId := 0,
      seekTarget := none } 99 exRoom rfl rfl
  simpa using h

/-! ## Claim C2: follower joins into an empty room -/

/-- Counterexample for C2 as stated: the very first follower to request
a not-yet-existing room is not rejected; the join succeeds (the
`NO_LEADER` guard additionally requires `room.users.size > 0`, which
fails for a freshly created room). -/
theorem first_follower_join_succeeds :
    (joinRoom (initialManager { maxRoomCount := 10, maxUsersPerRoom := 10 })
        "r1" Role.follower "f1" "demo" 20).2.1.success = true := by
  decide

/-- C2 (amended): when two followers request to join an empty
(not-yet-existing) room in sequence, the first follower's join succeeds
and creates the room with one member and no leader; the second
follower's join is rejected with error `NO_LEADER`; after a leader
joins that room, the follower's subsequent join succeeds. -/
theorem follower_join_sequence :
    (joinRoom (initialManager { maxRoomCount := 10, maxUsersPerRoom := 10 })
        "r1" Role.follower "f1" "demo" 20).2.1.success = true ∧
    ((getRoom (joinRoom (initialManager { maxRoomCount := 10, maxUsersPerRoom := 10 })
        "r1" Role.follower "f1" "demo" 20).1 "r1").map Room.leaderId = some none ∧
     (getRoom (joinRoom (initialManager { maxRoomCount := 10, maxUsersPerRoom := 10 })
        "r1" Role.follower "f1" "demo" 20).1 "r1").map
          (fun r => r.users.length) = some 1) ∧
    (joinRoom (joinRoom (initialManager { maxRoomCount := 10, maxUsersPerRoom := 10 })
        "r1" Role.follower "f1" "demo" 20).1
        "r1" Role.follower "f2" "demo" 21).2.1.success = false ∧
    ((joinRoom (joinRoom (initialManager { maxRoomCount := 10, maxUsersPerRoom := 10 })
        "r1" Role.follower "f1" "demo" 20).1
        "r1" Role.follower "f2" "demo" 21).2.1.error.map Prod.fst = some "NO_LEADER") ∧
    (joinRoom
        (joinRoom (joinRoom (initialManager { maxRoomCount := 10, maxUsersPerRoom := 10 })
            "r1" Role.follower "f1" "demo" 20).1
          "r1" Role.follower "f2" "demo" 21).1
        "r1" Role.leader "l1" "demo" 22).2.1.success = true ∧
    (joinRoom
        (joinRoom
          (joinRoom (joinRoom (initialManager { maxRoomCount := 10, maxUsersPerRoom := 10 })
              "r1" Role.follower "f1" "demo" 20).1
            "r1" Role.follower "f2" "demo" 21).1
          "r1" Role.leader "l1" "demo" 22).1
        "r1" Role.follower "f2" "demo" 21).2.1.success = true := by
  decide

/-! ## Claim C9: non-leader sync/control relays are dropped silently -/

/-- C9: a `sync-update` or `playback-control` relayed by a member who
is not the room's current leader is a no-op apart from a warning log:
the manager state is unchanged and no message is sent to anyone (in
particular no error reaches the sender). -/
theorem nonleader_updates_dropped (mgr : RoomManager) (roomId : RoomId) (userId : UserId)
    (room : Room) (su : SyncUpdateMsg) (pc : PlaybackControlMsg) (now : ℤ)
    (hroom : getRoom mgr roomId = some room) (hnl : ¬ room.leaderId = some userId) :
    handleSyncUpdate mgr roomId userId su now = (mgr, []) ∧
    handlePlaybackControl mgr roomId userId pc now = (mgr, []) := by
  constructor
  · unfold handleSyncUpdate
    rw [hroom]
    dsimp only
    rw [if_pos hnl]
  · unfold handlePlaybackControl
    rw [hroom]
    dsimp only
    rw [if_pos hnl]

/-- Witness for C9: member `5` is not the leader of `exRoom` (the
leader is `0`); both relays leave `exMgr` untouched and send nothing. -/
theorem nonleader_updates_dropped_witness :
    handleSyncUpdate exMgr "r1" 5
        { timestamp := 1, groupId := 1, objectId := 0, isPlaying := true } 99 =
      (exMgr, []) ∧
    handlePlaybackControl exMgr "r1" 5
        { action := ControlAction.pause, timestamp := 1, groupId := 1, objectId := 0,
          seekTarget := none } 99 =
      (exMgr, []) := by
  exact nonleader_updates_dropped exMgr "r1" 5 exRoom
    { timestamp := 1, groupId := 1, objectId := 0, isPlaying := true }
    { action := ControlAction.pause, timestamp := 1, groupId := 1, objectId := 0,
      seekTarget := none } 99 rfl (by simp [exRoom])

/-! ## Claim C10: messages from unjoined or stale connections -/

/-- C10: a `sync-update` or `playback-control` arriving on a connection
that has no join record, or whose recorded room no longer exists, is
dropped without any effect: the server state (manager and connection
table) is unchanged, nothing is sent to anyone, and no close is issued
(the handlers only ever return an updated state and outbound messages;
the connection registry is untouched). -/
theorem unjoined_or_stale_messages_dropped (st : ServerState) (ws : ConnId)
    (su : SyncUpdateMsg) (pc : PlaybackControlMsg) (now : ℤ) :
    (st.connectionToUserId.find? (fun e => decide (e.1 = ws)) = none →
      serverHandleSyncUpdate st ws su now = (st, []) ∧
      serverHandlePlaybackControl st ws pc now = (st, [])) ∧
    (∀ c uid rid,
      st.connectionToUserId.find? (fun e => decide (e.1 = ws)) = some (c, uid, rid) →
      getRoom st.manager rid = none →
      serverHandleSyncUpdate st ws su now = (st, []) ∧
      serverHandlePlaybackControl st ws pc now = (st, [])) := by
  constructor
  · intro hnone
    constructor
    · unfold serverHandleSyncUpdate
      rw [hnone]
    · unfold serverHandlePlaybackControl
      rw [hnone]
  · intro c uid rid hfound hnoroom
    constructor
    · unfold serverHandleSyncUpdate
      rw [hfound]
      dsimp only
      unfold handleSyncUpdate
      rw [hnoroom]
    · unfold serverHandlePlaybackControl
      rw [hfound]
      dsimp only
      unfold handlePlaybackControl
      rw [hnoroom]

/-- Witness for C10: a state with one stale join record (connection `0`
mapped to the vanished room `"gone"`) and an unknown connection `7`;
both message kinds are dropped in both situations. -/
theorem unjoined_or_stale_messages_dropped_witness :
    (serverHandleSyncUpdate
        { manager := initialManager { maxRoomCount := 10, maxUsersPerRoom := 10 },
          connectionToUserId := [(0, 5, "gone")] } 7
        { timestamp := 1, groupId := 1, objectId := 0, isPlaying := true } 0 =
      ({ manager := initialManager { maxRoomCount := 10, maxUsersPerRoom := 10 },
         connectionToUserId := [(0, 5, "gone")] }, [])) ∧
    (serverHandlePlaybackControl
        { manager := initialManager { maxRoomCount := 10, maxUsersPerRoom := 10 },
          connectionToUserId := [(0, 5, "gone")] } 0
        { action := ControlAction.play, timestamp := 1, groupId := 1, objectId := 0,
          seekTarget := none } 0 =
      ({ manager := initialManager { maxRoomCount := 10, maxUsersPerRoom := 10 },
         connectionToUserId := [(0, 5, "gone")] }, [])) := by
  have h1 := (unjoined_or_stale_messages_dropped
      { manager := initialManager { maxRoomCount := 10, maxUsersPerRoom := 10 },
        connectionToUserId := [(0, 5, "gone")] } 7
      { timestamp := 1, groupId := 1, objectId := 0, isPlaying := true }
      { action := ControlAction.play, timestamp := 1, groupId := 1, objectId := 0,
        seekTarget := none } 0).1 (by decide)
  have h2 := (unjoined_or_stale_messages_dropped
      { manager := initialManager { maxRoomCount := 10, maxUsersPerRoom := 10 },
        connectionToUserId := [(0, 5, "gone")] } 0
      { timestamp := 1, groupId := 1, objectId := 0, isPlaying := true }
      { action := ControlAction.play, timestamp := 1, groupId := 1, objectId := 0,
        seekTarget := none } 0).2 0 5 "gone" (by decide) rfl
  exact ⟨h1.1, h2.2⟩

/-! ## Claim C3: leader departure and promotion -/

/-- In a list of users with distinct ids, exactly one entry carries the
id of a given member. -/
lemma filter_id_length_one (l : List User) (c : User)
    (hnd : (l.map User.id).Nodup) (hc : c ∈ l) :
    (l.filter fun u => decide (u.id = c.id)).length = 1 := by
  induction l with
  | nil => simp at hc
  | cons a tl ih =>
    simp only [List.map_cons, List.nodup_cons] at hnd
    rcases List.mem_cons.mp hc with rfl | hmem
    · have hb : decide (c.id = c.id) = true := by simp
      simp only [List.filter, hb]
      have hnil : tl.filter (fun u => decide (u.id = c.id)) = [] := by
        rw [List.filter_eq_nil_iff]
        intro x hx hpx
        have hxe : x.id = c.id := by simpa using hpx
        exact hnd.1 (hxe ▸ List.mem_map_of_mem User.id hx)
      rw [hnil]
      simp
    · have hna : ¬ a.id = c.id := by
        intro he
        exact hnd.1 (he ▸ List.mem_map_of_mem User.id hmem)
      have hb : decide (a.id = c.id) = false := by simpa using hna
      simp only [List.filter, hb]
      exact ih hnd.2 hmem

/-- Reduction of the promotion block when every remaining member is a
follower and the random draw lies in `[0, 1)`: one remaining member is
chosen, made leader, and recorded as the new leader id. -/
lemma promoteAfterLeaderLeft_spec (room1 : Room) (remaining : List User) (rand : ℚ)
    (hall : ∀ u ∈ remaining, u.role = Role.follower)
    (hne : remaining ≠ []) (hrand0 : 0 ≤ rand) (hrand1 : rand < 1) :
    ∃ chosen, chosen ∈ remaining ∧ chosen.role = Role.follower ∧
      promoteAfterLeaderLeft room1 remaining rand =
        ({ room1 with
            leaderId := some chosen.id,
            users := remaining.map fun u =>
              if u.id = chosen.id then { u with role := Role.leader } else u },
         some chosen.id) := by
  have hfollowers : remaining.filter (fun u => decide (u.role = Role.follower)) = remaining :=
    List.filter_eq_self.mpr fun u hu => by simpa using hall u hu
  have hlen : 0 < remaining.length := List.length_pos.mpr hne
  have hmul0 : 0 ≤ rand * (remaining.length : ℚ) := mul_nonneg hrand0 (by positivity)
  have hmullt : rand * (remaining.length : ℚ) < (remaining.length : ℚ) := by
    have hq : (0 : ℚ) < (remaining.length : ℚ) := by exact_mod_cast hlen
    calc rand * (remaining.length : ℚ) < 1 * (remaining.length : ℚ) :=
          mul_lt_mul_of_pos_right hrand1 hq
      _ = (remaining.length : ℚ) := one_mul _
  have hfl0 : (0 : ℤ) ≤ ⌊rand * (remaining.length : ℚ)⌋ := Int.floor_nonneg.mpr hmul0
  have hfllt : ⌊rand * (remaining.length : ℚ)⌋ < (remaining.length : ℤ) := by
    rw [Int.floor_lt]
    push_cast
    exact hmullt
  have hidx : (⌊rand * (remaining.length : ℚ)⌋).toNat < remaining.length := by omega
  refine ⟨remaining.get ⟨(⌊rand * (remaining.length : ℚ)⌋).toNat, hidx⟩,
    List.get_mem _ _ _, hall _ (List.get_mem _ _ _), ?_⟩
  unfold promoteAfterLeaderLeft
  rw [hfollowers, if_pos hlen]
  simp only [List.get?_eq_get hidx]

/-- After promoting `chosen` (a member of a follower-only remainder
with distinct ids), the updated member list carries exactly one member
with role leader, and every leader-role member carries the chosen id. -/
lemma promoted_users_one_leader (remaining : List User) (chosen : User)
    (hnd : (remaining.map User.id).Nodup) (hmem : chosen ∈ remaining)
    (hall : ∀ u ∈ remaining, u.role = Role.follower) :
    ((remaining.map fun u =>
        if u.id = chosen.id then { u with role := Role.leader } else u).filter
      (fun u => decide (u.role = Role.leader))).length = 1 ∧
    (∀ u ∈ remaining.map fun u =>
        if u.id = chosen.id then { u with role := Role.leader } else u,
      u.role = Role.leader → u.id = chosen.id) := by
  constructor
  · rw [List.filter_map, List.length_map]
    have hcongr : remaining.filter
        ((fun u => decide (u.role = Role.leader)) ∘ fun u =>
          if u.id = chosen.id then { u with role := Role.leader } else u) =
        remaining.filter (fun u => decide (u.id = chosen.id)) := by
      apply List.filter_congr
      intro x hx
      by_cases hxe : x.id = chosen.id
      · simp [Function.comp, hxe]
      · simp [Function.comp, hxe, hall x hx]
    rw [hcongr]
    exact filter_id_length_one remaining chosen hnd hmem
  · intro u hu hroleu
    obtain ⟨v, hv, hveq⟩ := List.mem_map.mp hu
    by_cases hve : v.id = chosen.id
    · rw [if_pos hve] at hveq
      rw [← hveq]
      exact hve
    · rw [if_neg hve] at hveq
      rw [← hveq] at hroleu
      rw [hall v hv] at hroleu
      exact absurd hroleu (by simp)

/-- Writing a room whose id is a given key makes lookups of that key
return it. -/
lemma getRoom_setRoom_of_id (mgr : RoomManager) (room : Room) (rid : RoomId)
    (h : room.id = rid) : getRoom (setRoom mgr room) rid = some room :=
  h ▸ getRoom_setRoom_self mgr room

/-- C3: for every room state and every `LeaveRoom` of the current
leader: if no member remains, the room is destroyed (its member count
reached zero); if members remain but none has role follower, `leaderId`
becomes null and the room continues to exist; and — under the
reachable-state invariants that member ids are distinct and only the
departing leader carries the leader role, with the random draw in
`[0, 1)` — if at least one follower remains, exactly one of those
followers becomes the new leader: the room's `leaderId` is set to that
follower and its role becomes leader. -/
theorem leader_leave_promotes_follower (mgr : RoomManager) (roomId : RoomId)
    (userId : UserId) (room : Room) (u0 : User) (rand : ℚ)
    (hroom : getRoom mgr roomId = some room)
    (hfind : room.users.find? (fun u => decide (u.id = userId)) = some u0)
    (hleader : room.leaderId = some userId) :
    (room.users.filter (fun u => decide (¬ u.id = userId)) = [] →
      getRoom (leaveRoom mgr roomId userId rand).1 roomId = none) ∧
    (room.users.filter (fun u => decide (¬ u.id = userId)) ≠ [] →
      (room.users.filter (fun u => decide (¬ u.id = userId))).filter
          (fun u => decide (u.role = Role.follower)) = [] →
      ∃ room2, getRoom (leaveRoom mgr roomId userId rand).1 roomId = some room2 ∧
        room2.leaderId = none ∧
        room2.users = room.users.filter (fun u => decide (¬ u.id = userId))) ∧
    (room.users.filter (fun u => decide (¬ u.id = userId)) ≠ [] →
      (room.users.map User.id).Nodup →
      (∀ u ∈ room.users, u.role = Role.leader → u.id = userId) →
      0 ≤ rand → rand < 1 →
      ∃ chosen room2,
        chosen ∈ room.users.filter (fun u => decide (¬ u.id = userId)) ∧
        chosen.role = Role.follower ∧
        getRoom (leaveRoom mgr roomId userId rand).1 roomId = some room2 ∧
        room2.leaderId = some chosen.id ∧
        (room2.users.filter (fun u => decide (u.role = Role.leader))).length = 1 ∧
        (∀ u ∈ room2.users, u.role = Role.leader → u.id = chosen.id) ∧
        room2.users.length =
          (room.users.filter (fun u => decide (¬ u.id = userId))).length) := by
  have hid : room.id = roomId := getRoom_id mgr roomId room hroom
  refine ⟨?_, ?_, ?_⟩
  · intro hrem
    unfold leaveRoom
    rw [hroom]
    dsimp only
    rw [hfind]
    dsimp only
    rw [hrem]
    rw [if_pos (show ([] : List User).length = 0 from rfl)]
    unfold getRoom
    dsimp only
    rw [List.find?_eq_none]
    intro x hx hpx
    have hxne : ¬ x.id = roomId := by simpa using List.of_mem_filter hx
    exact hxne (by simpa using hpx)
  · intro hrem hnofol
    unfold leaveRoom
    rw [hroom]
    dsimp only
    rw [hfind]
    dsimp only
    have hlen : ¬ (room.users.filter (fun u => decide (¬ u.id = userId))).length = 0 := by
      simpa [List.length_eq_zero] using hrem
    rw [if_neg hlen, if_pos hleader]
    unfold promoteAfterLeaderLeft
    rw [hnofol]
    dsimp only
    rw [if_neg (by simp)]
    exact ⟨_, getRoom_setRoom_of_id mgr _ roomId hid, rfl, rfl⟩
  · intro hrem hnodup hone hrand0 hrand1
    have hallfol : ∀ u ∈ room.users.filter (fun u => decide (¬ u.id = userId)),
        u.role = Role.follower := by
      intro u hu
      have hmem := List.mem_of_mem_filter hu
      have hne2 : ¬ u.id = userId := by simpa using List.of_mem_filter hu
      cases hrole : u.role with
      | leader => exact absurd (hone u hmem hrole) hne2
      | follower => rfl
    have hndrem : ((room.users.filter
        (fun u => decide (¬ u.id = userId))).map User.id).Nodup :=
      List.Nodup.sublist ((List.filter_sublist _).map User.id) hnodup
    obtain ⟨chosen, hchmem, hchrole, hpromote⟩ :=
      promoteAfterLeaderLeft_spec
        { room with
            users := room.users.filter (fun u => decide (¬ u.id = userId)) }
        (room.users.filter (fun u => decide (¬ u.id = userId))) rand hallfol hrem
        hrand0 hrand1
    have hprops := promoted_users_one_leader
      (room.users.filter (fun u => decide (¬ u.id = userId))) chosen hndrem hchmem hallfol
    unfold leaveRoom
    rw [hroom]
    dsimp only
    rw [hfind]
    dsimp only
    have hlen : ¬ (room.users.filter (fun u => decide (¬ u.id = userId))).length = 0 := by
      simpa [List.length_eq_zero] using hrem
    rw [if_neg hlen, if_pos hleader, hpromote]
    dsimp only
    refine ⟨chosen, _, hchmem, hchrole,
      getRoom_setRoom_of_id mgr _ roomId hid, rfl, hprops.1, hprops.2, ?_⟩
    exact List.length_map _ _

/-- A two-member example room: leader `0` ("alice") and follower `1`
("bob"). -/
def c3Room : Room :=
  { id := "r1", leaderId := some 0,
    users := [{ id := 0, name := "alice", role := Role.leader, roomId := "r1",
                mediaTrackName := "demo", conn := 10 },
              { id := 1, name := "bob", role := Role.follower, roomId := "r1",
                mediaTrackName := "demo", conn := 11 }],
    mediaName := "demo", currentPlaybackState := none }

/-- An example manager holding `c3Room`. -/
def c3Mgr : RoomManager :=
  { config := { maxRoomCount := 10, maxUsersPerRoom := 10 },
    rooms := [c3Room], allConnections := [10, 11], nextUserId := 2 }

/-- Witness for C3: in `c3Room` (leader `0`, follower `1`) the leader
leaves with draw `rand = 0`; some remaining follower is promoted and
becomes the room's single leader. -/
theorem leader_leave_promotes_follower_witness :
    ∃ chosen room2,
      chosen ∈ c3Room.users.filter (fun u => decide (¬ u.id = 0)) ∧
      chosen.role = Role.follower ∧
      getRoom (leaveRoom c3Mgr "r1" 0 0).1 "r1" = some room2 ∧
      room2.leaderId = some chosen.id ∧
      (room2.users.filter (fun u => decide (u.role = Role.leader))).length = 1 := by
  have h := (leader_leave_promotes_follower c3Mgr "r1" 0 c3Room
      { id := 0, name := "alice", role := Role.leader, roomId := "r1",
        mediaTrackName := "demo", conn := 10 } 0 rfl rfl rfl).2.2
    (by decide) (by decide) (by decide) (by norm_num) (by norm_num)
  obtain ⟨chosen, room2, h1, h2, h3, h4, h5, _⟩ := h
  exact ⟨chosen, room2, h1, h2, h3, h4, h5⟩

/-! ## Claim C4: the leader invariant over join/leave sequences -/

/-- Well-formedness of a room with respect to the id generator: member
ids are distinct and below the generator, the leader id (when present)
is below the generator, and a member carries the leader role exactly
when it is the recorded leader. -/
structure RoomWF (nextId : ℕ) (room : Room) : Prop where
  idsNodup : (room.users.map User.id).Nodup
  idsLt : ∀ u ∈ room.users, u.id < nextId
  leaderLt : ∀ x, room.leaderId = some x → x < nextId
  leaderIff : ∀ u ∈ room.users, u.role = Role.leader ↔ room.leaderId = some u.id

/-- Well-formedness of the whole manager: room keys are distinct and
every room is well-formed. -/
structure MgrWF (mgr : RoomManager) : Prop where
  roomIdsNodup : (mgr.rooms.map Room.id).Nodup
  rooms : ∀ room ∈ mgr.rooms, RoomWF mgr.nextUserId room

/-- Room well-formedness is monotone in the id generator. -/
lemma RoomWF.mono {n m : ℕ} {room : Room} (h : RoomWF n room) (hnm : n ≤ m) :
    RoomWF m room where
  idsNodup := h.idsNodup
  idsLt := fun u hu => lt_of_lt_of_le (h.idsLt u hu) hnm
  leaderLt := fun x hx => lt_of_lt_of_le (h.leaderLt x hx) hnm
  leaderIff := h.leaderIff

/-- Updating the map in place does not change the key list. -/
lemma updateRooms_map_id (rooms : List Room) (room : Room) :
    (updateRooms rooms room).map Room.id = rooms.map Room.id := by
  unfold updateRooms
  rw [List.map_map]
  apply List.map_congr_left
  intro r hr
  by_cases h : r.id = room.id
  · simp [Function.comp, h]
  · simp [Function.comp, h]

/-- Members of the map after a write are the written room or previous
members. -/
lemma mem_setRoom (mgr : RoomManager) (room r : Room)
    (hr : r ∈ (setRoom mgr room).rooms) : r = room ∨ r ∈ mgr.rooms := by
  unfold setRoom at hr
  by_cases h : mgr.rooms.any (fun r => decide (r.id = room.id))
  · rw [if_pos h] at hr
    unfold updateRooms at hr
    obtain ⟨x, hx, hxe⟩ := List.mem_map.mp hr
    by_cases hxid : x.id = room.id
    · rw [if_pos hxid] at hxe
      exact Or.inl hxe.symm
    · rw [if_neg hxid] at hxe
      exact Or.inr (hxe ▸ hx)
  · rw [if_neg h] at hr
    dsimp only at hr
    rcases List.mem_append.mp hr with hmem | hmem
    · exact Or.inr hmem
    · exact Or.inl (List.mem_singleton.mp hmem)

/-- A write keeps the key list duplicate-free. -/
lemma setRoom_ids_nodup (mgr : RoomManager) (room : Room)
    (hnd : (mgr.rooms.map Room.id).Nodup) :
    ((setRoom mgr room).rooms.map Room.id).Nodup := by
  unfold setRoom
  by_cases h : mgr.rooms.any (fun r => decide (r.id = room.id))
  · rw [if_pos h]
    dsimp only
    rw [updateRooms_map_id]
    exact hnd
  · rw [if_neg h]
    dsimp only
    rw [List.map_append, List.nodup_append]
    refine ⟨hnd, List.nodup_singleton _, ?_⟩
    rw [List.map_singleton, List.disjoint_singleton]
    intro hmem
    obtain ⟨r, hrmem, hre⟩ := List.mem_map.mp hmem
    have hall : ∀ x ∈ mgr.rooms, ¬ x.id = room.id := by simpa using h
    exact hall r hrmem hre

/-- Writing a well-formed room into a well-formed manager keeps the
manager well-formed. -/
lemma setRoom_wf (mgr : RoomManager) (room2 : Room) (h : MgrWF mgr)
    (h2 : RoomWF mgr.nextUserId room2) : MgrWF (setRoom mgr room2) where
  roomIdsNodup := setRoom_ids_nodup mgr room2 h.roomIdsNodup
  rooms := by
    intro r hr
    have hnext : (setRoom mgr room2).nextUserId = mgr.nextUserId := by
      unfold setRoom
      by_cases hc : mgr.rooms.any (fun r => decide (r.id = room2.id)) <;> simp [hc]
    rw [hnext]
    rcases mem_setRoom mgr room2 r hr with rfl | hmem
    · exact h2
    · exact h.rooms r hmem

/-- The room produced by `getOrCreateRoom` is well-formed and stored,
the manager stays well-formed, and the id generator is untouched. -/
lemma getOrCreateRoom_wf (mgr : RoomManager) (roomId : RoomId) (h : MgrWF mgr) :
    MgrWF (getOrCreateRoom mgr roomId).1 ∧
    RoomWF mgr.nextUserId (getOrCreateRoom mgr roomId).2 ∧
    (getOrCreateRoom mgr roomId).2.id = roomId ∧
    (getOrCreateRoom mgr roomId).1.nextUserId = mgr.nextUserId ∧
    (getOrCreateRoom mgr roomId).2 ∈ (getOrCreateRoom mgr roomId).1.rooms := by
  unfold getOrCreateRoom
  cases hg : getRoom mgr roomId with
  | some room =>
    dsimp only
    exact ⟨h, h.rooms room (List.mem_of_find?_eq_some hg), getRoom_id mgr roomId room hg,
      rfl, List.mem_of_find?_eq_some hg⟩
  | none =>
    dsimp only
    have hnotin : roomId ∉ mgr.rooms.map Room.id := by
      intro hmem
      obtain ⟨r, hrmem, hre⟩ := List.mem_map.mp hmem
      have := List.find?_eq_none.mp hg r hrmem
      exact this (by simpa using hre)
    refine ⟨?_, ?_, rfl, rfl, List.mem_append_right _ (List.mem_singleton.mpr rfl)⟩
    · constructor
      · dsimp only
        rw [List.map_append, List.nodup_append]
        exact ⟨h.roomIdsNodup, List.nodup_singleton _, by
          rw [List.map_singleton, List.disjoint_singleton]; exact hnotin⟩
      · intro r hr
        dsimp only at hr
        rcases List.mem_append.mp hr with hmem | hmem
        · exact h.rooms r hmem
        · rw [List.mem_singleton.mp hmem]
          exact ⟨by simp, by simp, by simp, by simp⟩
    · exact ⟨by simp, by simp, by simp, by simp⟩

/-- Appending a fresh member preserves the id-list properties. -/
lemma users_append_fresh_nodup (users : List User) (user : User) (n : ℕ)
    (hnd : (users.map User.id).Nodup) (hlt : ∀ u ∈ users, u.id < n)
    (hid : user.id = n) : ((users ++ [user]).map User.id).Nodup := by
  rw [List.map_append, List.map_singleton, List.nodup_append]
  refine ⟨hnd, List.nodup_singleton _, ?_⟩
  rw [List.disjoint_singleton]
  intro hmem
  obtain ⟨u, hu, hue⟩ := List.mem_map.mp hmem
  have := hlt u hu
  omega

/-- `joinRoom` preserves manager well-formedness. -/
lemma joinRoom_wf (mgr : RoomManager) (roomId : RoomId) (role : Role)
    (userName mediaTrackName : String) (conn : ConnId) (h : MgrWF mgr) :
    MgrWF (joinRoom mgr roomId role userName mediaTrackName conn).1 := by
  obtain ⟨hg1, hg2, hg3, hg4, hg5⟩ := getOrCreateRoom_wf mgr roomId h
  unfold joinRoom
  by_cases hc1 : ¬ (getRoom mgr roomId).isSome = true ∧
      mgr.rooms.length ≥ mgr.config.maxRoomCount
  · rw [if_pos hc1]
    exact h
  · rw [if_neg hc1]
    dsimp only
    by_cases hc2 : (getOrCreateRoom mgr roomId).2.users.length ≥
        (getOrCreateRoom mgr roomId).1.config.maxUsersPerRoom
    · rw [if_pos hc2]
      exact hg1
    · rw [if_neg hc2]
      by_cases hc3 : role = Role.leader ∧ (getOrCreateRoom mgr roomId).2.leaderId.isSome
      · rw [if_pos hc3]
        exact hg1
      · rw [if_neg hc3]
        by_cases hc4 : role = Role.follower ∧
            (getOrCreateRoom mgr roomId).2.leaderId = none ∧
            (getOrCreateRoom mgr roomId).2.users.length > 0
        · rw [if_pos hc4]
          exact hg1
        · rw [if_neg hc4]
          dsimp only
          have hmgr1 : MgrWF { (getOrCreateRoom mgr roomId).1 with
              nextUserId := (getOrCreateRoom mgr roomId).1.nextUserId + 1 } := by
            constructor
            · exact hg1.roomIdsNodup
            · intro r hr
              exact (hg1.rooms r hr).mono (Nat.le_succ _)
          cases role with
          | leader =>
            have hlid : (getOrCreateRoom mgr roomId).2.leaderId = none := by
              rcases hc5 : (getOrCreateRoom mgr roomId).2.leaderId with _ | x
              · rfl
              · exact absurd ⟨rfl, by rw [hc5]; rfl⟩ hc3
            rw [if_pos rfl]
            apply setRoom_wf _ _ hmgr1
            dsimp only
            constructor
            · exact users_append_fresh_nodup _ _ mgr.nextUserId hg2.idsNodup hg2.idsLt hg4
            · intro u hu
              rcases List.mem_append.mp hu with hmem | hmem
              · have := hg2.idsLt u hmem
                omega
              · rw [List.mem_singleton.mp hmem]
                dsimp only
                omega
            · intro x hx
              dsimp only at hx
              rw [Option.some_inj] at hx
              omega
            · intro u hu
              dsimp only
              rcases List.mem_append.mp hu with hmem | hmem
              · have hold := hg2.leaderIff u hmem
                rw [hlid] at hold
                have hlt := hg2.idsLt u hmem
                constructor
                · intro hrole
                  exact absurd (hold.mp hrole) (by simp)
                · intro he
                  rw [Option.some_inj] at he
                  exfalso
                  omega
              · rw [List.mem_singleton.mp hmem]
                exact ⟨fun _ => rfl, fun _ => rfl⟩
          | follower =>
            rw [if_neg (by simp)]
            apply setRoom_wf _ _ hmgr1
            dsimp only
            constructor
            · exact users_append_fresh_nodup _ _ mgr.nextUserId hg2.idsNodup hg2.idsLt hg4
            · intro u hu
              rcases List.mem_append.mp hu with hmem | hmem
              · have := hg2.idsLt u hmem
                omega
              · rw [List.mem_singleton.mp hmem]
                dsimp only
                omega
            · intro x hx
              dsimp only at hx
              have := hg2.leaderLt x hx
              omega
            · intro u hu
              dsimp only
              rcases List.mem_append.mp hu with hmem | hmem
              · exact hg2.leaderIff u hmem
              · rw [List.mem_singleton.mp hmem]
                constructor
                · intro hrole
                  exact absurd hrole (by simp)
                · intro he
                  exfalso
                  have hlt2 := hg2.leaderLt _ he
                  dsimp only at hlt2
                  omega

/-- The promotion block preserves room well-formedness, for every value
of the random draw. -/
lemma promoteAfterLeaderLeft_wf (room : Room) (userId : ℕ) (rand : ℚ) (n : ℕ)
    (hwf : RoomWF n room) (hwl : room.leaderId = some userId) :
    RoomWF n (promoteAfterLeaderLeft
      { room with users := room.users.filter (fun u => decide (¬ u.id = userId)) }
      (room.users.filter (fun u => decide (¬ u.id = userId))) rand).1 := by
  have hnl : ∀ v ∈ room.users.filter (fun u => decide (¬ u.id = userId)),
      ¬ v.role = Role.leader := by
    intro v hv hrole
    have hne : ¬ v.id = userId := by simpa using List.of_mem_filter hv
    have hlid := (hwf.leaderIff v (List.mem_of_mem_filter hv)).mp hrole
    rw [hwl] at hlid
    exact hne (Option.some_inj.mp hlid).symm
  have hsub : ((room.users.filter (fun u => decide (¬ u.id = userId))).map User.id).Nodup :=
    List.Nodup.sublist ((List.filter_sublist _).map User.id) hwf.idsNodup
  have hnone : RoomWF n
      { room with
          users := room.users.filter (fun u => decide (¬ u.id = userId)),
          leaderId := none } := by
    constructor
    · exact hsub
    · intro u hu
      exact hwf.idsLt u (List.mem_of_mem_filter hu)
    · intro x hx
      exact absurd hx (by simp)
    · intro u hu
      exact ⟨fun hrole => absurd hrole (hnl u hu), fun he => by simp at he⟩
  unfold promoteAfterLeaderLeft
  by_cases hflen : ((room.users.filter (fun u => decide (¬ u.id = userId))).filter
      (fun u => decide (u.role = Role.follower))).length > 0
  · rw [if_pos hflen]
    cases hgidx : ((room.users.filter (fun u => decide (¬ u.id = userId))).filter
        (fun u => decide (u.role = Role.follower))).get?
        ((⌊rand * (((room.users.filter (fun u => decide (¬ u.id = userId))).filter
          (fun u => decide (u.role = Role.follower))).length : ℚ)⌋).toNat) with
    | none =>
      simp only [hgidx]
      exact hnone
    | some chosen =>
      simp only [hgidx]
      have hchrem : chosen ∈ room.users.filter (fun u => decide (¬ u.id = userId)) :=
        List.mem_of_mem_filter (List.get?_mem hgidx)
      constructor
      · have hids : ((room.users.filter (fun u => decide (¬ u.id = userId))).map
            (fun u => if u.id = chosen.id then { u with role := Role.leader } else u)).map
              User.id =
            (room.users.filter (fun u => decide (¬ u.id = userId))).map User.id := by
          rw [List.map_map]
          apply List.map_congr_left
          intro v hv
          by_cases hve : v.id = chosen.id
          · simp [Function.comp, hve]
          · simp [Function.comp, hve]
        rw [hids]
        exact hsub
      · intro u hu
        obtain ⟨v, hv, hveq⟩ := List.mem_map.mp hu
        have hvlt := hwf.idsLt v (List.mem_of_mem_filter hv)
        by_cases hve : v.id = chosen.id
        · rw [if_pos hve] at hveq
          rw [← hveq]
          exact hvlt
        · rw [if_neg hve] at hveq
          rw [← hveq]
          exact hvlt
      · intro x hx
        dsimp only at hx
        rw [Option.some_inj] at hx
        rw [← hx]
        exact hwf.idsLt chosen (List.mem_of_mem_filter hchrem)
      · intro u hu
        obtain ⟨v, hv, hveq⟩ := List.mem_map.mp hu
        by_cases hve : v.id = chosen.id
        · rw [if_pos hve] at hveq
          rw [← hveq]
          exact ⟨fun _ => by rw [hve], fun _ => rfl⟩
        · rw [if_neg hve] at hveq
          rw [← hveq]
          constructor
          · intro hrole
            exact absurd hrole (hnl v hv)
          · intro he
            dsimp only at he
            rw [Option.some_inj] at he
            exact absurd he.symm hve
  · rw [if_neg hflen]
    exact hnone

/-- `leaveRoom` preserves manager well-formedness. -/
lemma leaveRoom_wf (mgr : RoomManager) (roomId : RoomId) (userId : ℕ) (rand : ℚ)
    (h : MgrWF mgr) : MgrWF (leaveRoom mgr roomId userId rand).1 := by
  unfold leaveRoom
  cases hg : getRoom mgr roomId with
  | none => exact h
  | some room =>
    dsimp only
    cases hf : room.users.find? (fun u => decide (u.id = userId)) with
    | none => exact h
    | some user =>
      dsimp only
      have hroomwf := h.rooms room (List.mem_of_find?_eq_some hg)
      by_cases hlen : (room.users.filter (fun u => decide (¬ u.id = userId))).length = 0
      · rw [if_pos hlen]
        constructor
        · exact List.Nodup.sublist ((List.filter_sublist _).map Room.id) h.roomIdsNodup
        · intro r hr
          exact h.rooms r (List.mem_of_mem_filter hr)
      · rw [if_neg hlen]
        dsimp only
        apply setRoom_wf _ _ h
        by_cases hwl : room.leaderId = some userId
        · rw [if_pos hwl]
          exact promoteAfterLeaderLeft_wf room userId rand mgr.nextUserId hroomwf hwl
        · rw [if_neg hwl]
          constructor
          · exact List.Nodup.sublist ((List.filter_sublist _).map User.id) hroomwf.idsNodup
          · intro u hu
            exact hroomwf.idsLt u (List.mem_of_mem_filter hu)
          · intro x hx
            exact hroomwf.leaderLt x hx
          · intro u hu
            exact hroomwf.leaderIff u (List.mem_of_mem_filter hu)

/-- Every single operation preserves manager well-formedness. -/
lemma applyOp_wf (mgr : RoomManager) (op : Op) (h : MgrWF mgr) :
    MgrWF (applyOp mgr op) := by
  cases op with
  | join roomId role userName mediaTrackName conn =>
    exact joinRoom_wf mgr roomId role userName mediaTrackName conn h
  | leave roomId userId rand => exact leaveRoom_wf mgr roomId userId rand h

/-- Every reachable manager state is well-formed. -/
lemma runOps_wf (cfg : ServerConfig) (ops : List Op) : MgrWF (runOps cfg ops) := by
  have hinit : MgrWF (initialManager cfg) := by
    constructor
    · simp [initialManager]
    · intro room hroom
      simp [initialManager] at hroom
  suffices hstep : ∀ (l : List Op) (mgr : RoomManager), MgrWF mgr →
      MgrWF (l.foldl applyOp mgr) by
    exact hstep ops _ hinit
  intro l
  induction l with
  | nil => intro mgr hm; exact hm
  | cons op tl ih =>
    intro mgr hm
    exact ih _ (applyOp_wf mgr op hm)

/-- With distinct ids, at most one member satisfies the leader-role
characterisation. -/
lemma leader_filter_le_one (users : List User) (lid : Option ℕ)
    (hnd : (users.map User.id).Nodup)
    (hiff : ∀ u ∈ users, u.role = Role.leader ↔ lid = some u.id) :
    (users.filter fun u => decide (u.role = Role.leader)).length ≤ 1 := by
  induction users with
  | nil => simp
  | cons a tl ih =>
    simp only [List.map_cons, List.nodup_cons] at hnd
    by_cases ha : a.role = Role.leader
    · have hlid := (hiff a (List.mem_cons_self a tl)).mp ha
      have hb : decide (a.role = Role.leader) = true := by simpa using ha
      simp only [List.filter, hb]
      have hnil : tl.filter (fun u => decide (u.role = Role.leader)) = [] := by
        rw [List.filter_eq_nil_iff]
        intro x hx hpx
        have hxrole : x.role = Role.leader := by simpa using hpx
        have hxid := (hiff x (List.mem_cons_of_mem a hx)).mp hxrole
        rw [hlid] at hxid
        have hae : a.id = x.id := Option.some_inj.mp hxid
        exact hnd.1 (hae ▸ List.mem_map_of_mem User.id hx)
      rw [hnil]
      simp
    · have hb : decide (a.role = Role.leader) = false := by simpa using ha
      simp only [List.filter, hb]
      exact ih hnd.2 (fun u hu => hiff u (List.mem_cons_of_mem a hu))

/-- C4: for every sequence of `JoinRoom` and `LeaveRoom` operations
starting from the initial coordinator state, every reachable room state
has at most one member whose role is leader, and a room that has at
least one member but no leader accepts only joins with role leader: a
follower join of such a room is rejected (with `NO_LEADER`, or
`ROOM_FULL` when the room is also at capacity). -/
theorem join_leave_leader_invariant (cfg : ServerConfig) (ops : List Op) :
    (∀ room ∈ (runOps cfg ops).rooms,
      (room.users.filter fun u => decide (u.role = Role.leader)).length ≤ 1) ∧
    (∀ room ∈ (runOps cfg ops).rooms, room.users ≠ [] → room.leaderId = none →
      ∀ (userName mediaTrackName : String) (conn : ℕ),
        (joinRoom (runOps cfg ops) room.id Role.follower userName mediaTrackName
          conn).2.1.success = false) := by
  have hwf := runOps_wf cfg ops
  constructor
  · intro room hroom
    have hr := hwf.rooms room hroom
    exact leader_filter_le_one room.users room.leaderId hr.idsNodup hr.leaderIff
  · intro room hroom hne hnolid userName mediaTrackName conn
    have hfound : getRoom (runOps cfg ops) room.id = some room :=
      find?_id_of_mem_nodup _ room hwf.roomIdsNodup hroom
    unfold joinRoom
    rw [hfound]
    rw [if_neg (by simp)]
    dsimp only
    have hgc : getOrCreateRoom (runOps cfg ops) room.id = (runOps cfg ops, room) := by
      unfold getOrCreateRoom
      rw [hfound]
    rw [hgc]
    dsimp only
    by_cases hfull : room.users.length ≥ (runOps cfg ops).config.maxUsersPerRoom
    · rw [if_pos hfull]
    · rw [if_neg hfull]
      rw [if_neg (by simp)]
      rw [if_pos ⟨rfl, hnolid, List.length_pos.mpr hne⟩]

/-- The leaderless one-follower room created by the first follower join
of Scenario B. -/
def c4Room : Room :=
  { id := "r1", leaderId := none,
    users := [{ id := 0, name := "f1", role := Role.follower, roomId := "r1",
                mediaTrackName := "demo", conn := 20 }],
    mediaName := "demo", currentPlaybackState := none }

/-- Witness for C4: after one follower join, the reachable room
`c4Room` has at most one leader-role member (it has none), and a second
follower join of this leaderless non-empty room is rejected. -/
theorem join_leave_leader_invariant_witness :
    (c4Room.users.filter fun u => decide (u.role = Role.leader)).length ≤ 1 ∧
    (joinRoom (runOps { maxRoomCount := 10, maxUsersPerRoom := 10 }
        [Op.join "r1" Role.follower "f1" "demo" 20]) "r1" Role.follower "f2" "demo"
        21).2.1.success = false := by
  have h := join_leave_leader_invariant { maxRoomCount := 10, maxUsersPerRoom := 10 }
    [Op.join "r1" Role.follower "f1" "demo" 20]
  have hmem : c4Room ∈ (runOps { maxRoomCount := 10, maxUsersPerRoom := 10 }
      [Op.join "r1" Role.follower "f1" "demo" 20]).rooms := by decide
  exact ⟨h.1 c4Room hmem, h.2 c4Room hmem (by decide) rfl "f2" "demo" 21⟩

end SyncPlay
